import Mathlib

/-!
# Verification of the numTwo migration engine

A shallow embedding of the migration planner/executor of the numTwo
schema-migration engine (`MigrationManager`, the richer variant with
externalized SQL fragments), of its ledger access, and of the
`DenoDatabase.transaction` re-entrancy wrapper, together with theorems
settling the specification's claims about them.

Modelling conventions:
* JS numbers used as versions are modelled as `Int`.
* The external world is an `Env`: the migration source is a stream indexed
  by how many times it has been read (the code may read it more than once
  per call); fragment files are a fixed partial map; whether the store
  accepts a piece of SQL is an oracle `sqlOk`; `Date.now().toString()` is
  the fixed string `now`.
* The database is a `DBState`: the `migrations` ledger table (existence
  bit plus rows), an abstract append-only log of every successfully
  executed SQL text (`schemaLog`, standing for the schema effects), and
  the adapter's `inTransaction` flag.  A scoped transaction that fails
  restores the ledger, the log and the table bit to their values at
  `BEGIN`.
* Thrown JS errors become an explicit `MigErr`; each constructor mirrors
  one `throw` site of the source.
-/

set_option autoImplicit false

namespace NumTwo

/-- An `up`/`down` script field: inline SQL text or an external file
reference (`string | {file: string}` in the source). -/
inductive SqlSrc where
  | inline (sql : String)
  | file (path : String)
deriving DecidableEq, Repr

/-- Direction of a migration script. -/
inductive Direction where
  | up
  | down
deriving DecidableEq, Repr

/-- One migration record of the declarative source
(`Migration` in `MigrationManager`). -/
structure Migration where
  version : Int
  name : String
  description : String
  reversible : Bool
  up : SqlSrc
  down : Option SqlSrc
deriving DecidableEq, Repr

/-- One row of the `migrations` ledger table. -/
structure LedgerEntry where
  version : Int
  name : String
  description : String
  applied_at : String
deriving DecidableEq, Repr

/-- The store as seen through `IDatabase`: the ledger table plus an
abstract log of executed SQL, and the adapter's transaction flag. -/
structure DBState where
  tableExists : Bool
  ledger : List LedgerEntry
  schemaLog : List String
  inTransaction : Bool
deriving DecidableEq, Repr

/-- The external collaborators: `source i` is the parsed content of the
i-th read of the migrations file (reading or parsing may fail), `files`
maps fragment paths to their content, `sqlOk` says whether the store
accepts a SQL text, `now` is the apply timestamp string. -/
structure Env where
  source : Nat → Except Unit (List Migration)
  files : String → Option String
  sqlOk : String → Bool
  now : String

/-- Structured counterpart of every `throw new Error(...)` site. -/
inductive MigErr where
  | parseError
  | sequenceError (expected : Int) (actual : Int)
  | missingFileError (version : Int) (name : String) (d : Direction) (path : String)
  | loadError (inner : MigErr)
  | fileLoadError (version : Int) (d : Direction)
  | emptyScript (version : Int) (d : Direction)
  | stepNotFound (version : Int)
  | notReversible (version : Int) (name : String)
  | noRollbackScript (version : Int) (name : String)
  | sqlError (sql : String)
  | duplicateVersion (version : Int)
  | noSuchTable
  | executionError (d : Direction) (version : Int) (inner : MigErr)
deriving DecidableEq, Repr

instance {ε α : Type} [DecidableEq ε] [DecidableEq α] : DecidableEq (Except ε α) := fun x y =>
  match x, y with
  | Except.ok a, Except.ok b =>
      if h : a = b then isTrue (by rw [h])
      else isFalse (by intro hc; injection hc; exact h ‹_›)
  | Except.ok _, Except.error _ => isFalse (by intro hc; cases hc)
  | Except.error _, Except.ok _ => isFalse (by intro hc; cases hc)
  | Except.error e, Except.error f =>
      if h : e = f then isTrue (by rw [h])
      else isFalse (by intro hc; injection hc; exact h ‹_›)

/-- `db.exec(sql)`: the store either accepts the statement (its effect is
appended to the log) or rejects it. -/
def dbExec (env : Env) (sql : String) (db : DBState) : Except MigErr Unit × DBState :=
  if env.sqlOk sql then (Except.ok (), { db with schemaLog := db.schemaLog ++ [sql] })
  else (Except.error (MigErr.sqlError sql), db)

/-- `INSERT INTO migrations ...`: `version` is the primary key, so a
duplicate insert fails; otherwise the row is appended. -/
def dbInsert (e : LedgerEntry) (db : DBState) : Except MigErr Unit × DBState :=
  if db.ledger.any (fun r => r.version == e.version) then
    (Except.error (MigErr.duplicateVersion e.version), db)
  else (Except.ok (), { db with ledger := db.ledger ++ [e] })

/-- `DELETE FROM migrations WHERE version = ?`: a no-op when absent. -/
def dbDelete (v : Int) (db : DBState) : Except MigErr Unit × DBState :=
  (Except.ok (), { db with ledger := db.ledger.filter (fun r => r.version != v) })

/-- `DenoDatabase.transaction`: when already inside a transaction the
function runs directly; otherwise the flag is set, `BEGIN` is issued, and
on normal completion `COMMIT` clears the flag while on a thrown error
`ROLLBACK` restores the state at `BEGIN` and clears the flag before
rethrowing. -/
def dbTransaction {α : Type} (body : DBState → Except MigErr α × DBState) (db : DBState) :
    Except MigErr α × DBState :=
  if db.inTransaction then body db
  else
    match body { db with inTransaction := true } with
    | (Except.ok a, db1) => (Except.ok a, { db1 with inTransaction := false })
    | (Except.error e, _) => (Except.error e, { db with inTransaction := false })

/-- `SELECT MAX(version) as version FROM migrations` with the
`result?.version ?? 0` coalescing: 0 on an empty table, else the maximum
recorded version. -/
def ledgerMax (l : List LedgerEntry) : Int :=
  match l with
  | [] => 0
  | e :: rest => rest.foldl (fun acc r => max acc r.version) e.version

/-- `MigrationManager.getCurrentVersion`: querying the ledger table;
preparing the query throws when the table does not exist. -/
def getCurrentVersion (db : DBState) : Except MigErr Int :=
  if db.tableExists then Except.ok (ledgerMax db.ledger)
  else Except.error MigErr.noSuchTable

/-- `MigrationManager.ensureMigrationsTable`:
`CREATE TABLE IF NOT EXISTS migrations (...)`. -/
def ensureMigrationsTable (db : DBState) : DBState :=
  { db with tableExists := true }

/-- Stable insertion used by `sortMigrations`. -/
def insertMig (m : Migration) : List Migration → List Migration
  | [] => [m]
  | x :: xs => if x.version < m.version then x :: insertMig m xs else m :: x :: xs

/-- `migrationsFile.migrations.sort((a, b) => a.version - b.version)`:
a stable ascending sort by version. -/
def sortMigrations (l : List Migration) : List Migration :=
  l.foldr insertMig []

/-- The version-sequence validation loop of `loadMigrations`, from 0-based
position `i` on: `migrations[i].version` must equal `i + 1`. -/
def validateSeqFrom : List Migration → Nat → Except MigErr Unit
  | [], _ => Except.ok ()
  | m :: rest, i =>
      if m.version ≠ (i : Int) + 1 then
        Except.error (MigErr.sequenceError ((i : Int) + 1) m.version)
      else validateSeqFrom rest (i + 1)

/-- One file-reference existence check of `validateMigrationFiles`.  An
empty file path is falsy in JS, so the source skips the check for it. -/
def checkFileRef (env : Env) (m : Migration) (d : Direction) : Option SqlSrc → Except MigErr Unit
  | some (SqlSrc.file p) =>
      if p = "" then Except.ok ()
      else
        match env.files p with
        | some _ => Except.ok ()
        | none => Except.error (MigErr.missingFileError m.version m.name d p)
  | _ => Except.ok ()

/-- `MigrationManager.validateMigrationFiles`: every external reference of
every migration must resolve, up checked before down, migrations in list
order, failing fast. -/
def validateMigrationFiles (env : Env) : List Migration → Except MigErr Unit
  | [] => Except.ok ()
  | m :: rest =>
      match checkFileRef env m Direction.up (some m.up) with
      | Except.error e => Except.error e
      | Except.ok _ =>
          match checkFileRef env m Direction.down m.down with
          | Except.error e => Except.error e
          | Except.ok _ => validateMigrationFiles env rest

/-- `MigrationManager.loadMigrations`, reading the source for the
`readIdx`-th time: read and parse, sort ascending by version, validate the
dense 1..N sequence, validate file references; every failure is wrapped in
the `Failed to load migrations` error. -/
def loadMigrations (env : Env) (readIdx : Nat) : Except MigErr (List Migration) :=
  match env.source readIdx with
  | Except.error _ => Except.error (MigErr.loadError MigErr.parseError)
  | Except.ok raw =>
      let migs := sortMigrations raw
      match validateSeqFrom migs 0 with
      | Except.error e => Except.error (MigErr.loadError e)
      | Except.ok _ =>
          match validateMigrationFiles env migs with
          | Except.error e => Except.error (MigErr.loadError e)
          | Except.ok _ => Except.ok migs

/-- `migrations.length > 0 ? Math.max(...migrations.map(m => m.version)) : 0`. -/
def latestOf (migs : List Migration) : Int :=
  match migs with
  | [] => 0
  | m :: rest => rest.foldl (fun acc x => max acc x.version) m.version

/-- `MigrationManager.getLatestVersion`: loads the migrations (its own
read of the source) and takes the maximum version, 0 when empty. -/
def getLatestVersion (env : Env) (readIdx : Nat) : Except MigErr Int :=
  match loadMigrations env readIdx with
  | Except.error e => Except.error e
  | Except.ok migs => Except.ok (latestOf migs)

/-- `MigrationManager.resolveSql`: null stays null, inline text is
returned as is, a file reference is read now; a failed read throws the
`Failed to load SQL file` error. -/
def resolveSql (env : Env) (sql : Option SqlSrc) (version : Int) (d : Direction) :
    Except MigErr (Option String) :=
  match sql with
  | none => Except.ok none
  | some (SqlSrc.inline s) => Except.ok (some s)
  | some (SqlSrc.file p) =>
      match env.files p with
      | some content => Except.ok (some content)
      | none => Except.error (MigErr.fileLoadError version d)

/-- The body of one forward step's atomic unit: execute the resolved up
SQL, then insert the ledger row. -/
def forwardUnit (env : Env) (m : Migration) (version : Int) (upSql : String) (db : DBState) :
    Except MigErr Unit × DBState :=
  match dbExec env upSql db with
  | (Except.error e, db1) => (Except.error e, db1)
  | (Except.ok _, db1) =>
      dbInsert { version := version, name := m.name, description := m.description,
                 applied_at := env.now } db1

/-- One iteration of the `migrateUp` loop: locate the migration (failing
with the unwrapped not-found error), resolve its up SQL, reject a falsy
result, run the atomic unit; everything after the lookup is wrapped in the
`Failed to apply migration` error. -/
def forwardStep (env : Env) (migs : List Migration) (version : Int) (db : DBState) :
    Except MigErr Unit × DBState :=
  match migs.find? (fun m => m.version == version) with
  | none => (Except.error (MigErr.stepNotFound version), db)
  | some m =>
      match resolveSql env (some m.up) version Direction.up with
      | Except.error e => (Except.error (MigErr.executionError Direction.up version e), db)
      | Except.ok upOpt =>
          match upOpt with
          | none =>
              (Except.error (MigErr.executionError Direction.up version
                (MigErr.emptyScript version Direction.up)), db)
          | some upSql =>
              if upSql = "" then
                (Except.error (MigErr.executionError Direction.up version
                  (MigErr.emptyScript version Direction.up)), db)
              else
                match dbTransaction (forwardUnit env m version upSql) db with
                | (Except.ok _, db1) => (Except.ok (), db1)
                | (Except.error e, db1) =>
                    (Except.error (MigErr.executionError Direction.up version e), db1)

/-- The `migrateUp` loop as structural recursion on the number of
remaining iterations, current loop variable `version` ascending. -/
def upSteps (env : Env) (migs : List Migration) : Nat → Int → DBState →
    Except MigErr Unit × DBState
  | 0, _, db => (Except.ok (), db)
  | n + 1, version, db =>
      match forwardStep env migs version db with
      | (Except.error e, db1) => (Except.error e, db1)
      | (Except.ok _, db1) => upSteps env migs n (version + 1) db1

/-- The residual `migrateUp` loop about to run `version`, up to and
including `targetVersion`. -/
def migrateUpFrom (env : Env) (migs : List Migration) (version targetVersion : Int)
    (db : DBState) : Except MigErr Unit × DBState :=
  upSteps env migs (targetVersion + 1 - version).toNat version db

/-- `MigrationManager.migrateUp`: `for (version = currentVersion + 1;
version <= targetVersion; version++)`. -/
def migrateUp (env : Env) (migs : List Migration) (currentVersion targetVersion : Int)
    (db : DBState) : Except MigErr Unit × DBState :=
  migrateUpFrom env migs (currentVersion + 1) targetVersion db

/-- JS falsiness of the `down` field: absent (`null`) or the empty inline
string; a `{file}` object is always truthy. -/
def downFalsy : Option SqlSrc → Bool
  | none => true
  | some (SqlSrc.inline s) => s = ""
  | some (SqlSrc.file _) => false

/-- The body of one backward step's atomic unit: execute the resolved down
SQL, then delete the ledger row. -/
def backwardUnit (env : Env) (version : Int) (downSql : String) (db : DBState) :
    Except MigErr Unit × DBState :=
  match dbExec env downSql db with
  | (Except.error e, db1) => (Except.error e, db1)
  | (Except.ok _, db1) => dbDelete version db1

/-- One iteration of the `migrateDown` loop: locate the migration, check
`reversible` first, then the presence of a down script, then resolve it
and run the atomic unit; only resolution and the unit are wrapped in the
`Failed to rollback migration` error. -/
def backwardStep (env : Env) (migs : List Migration) (version : Int) (db : DBState) :
    Except MigErr Unit × DBState :=
  match migs.find? (fun m => m.version == version) with
  | none => (Except.error (MigErr.stepNotFound version), db)
  | some m =>
      if m.reversible = false then
        (Except.error (MigErr.notReversible version m.name), db)
      else if downFalsy m.down then
        (Except.error (MigErr.noRollbackScript version m.name), db)
      else
        match resolveSql env m.down version Direction.down with
        | Except.error e => (Except.error (MigErr.executionError Direction.down version e), db)
        | Except.ok downOpt =>
            match downOpt with
            | none =>
                (Except.error (MigErr.executionError Direction.down version
                  (MigErr.emptyScript version Direction.down)), db)
            | some downSql =>
                if downSql = "" then
                  (Except.error (MigErr.executionError Direction.down version
                    (MigErr.emptyScript version Direction.down)), db)
                else
                  match dbTransaction (backwardUnit env version downSql) db with
                  | (Except.ok _, db1) => (Except.ok (), db1)
                  | (Except.error e, db1) =>
                      (Except.error (MigErr.executionError Direction.down version e), db1)

/-- The `migrateDown` loop as structural recursion on the number of
remaining iterations, current loop variable `version` descending. -/
def downSteps (env : Env) (migs : List Migration) : Nat → Int → DBState →
    Except MigErr Unit × DBState
  | 0, _, db => (Except.ok (), db)
  | n + 1, version, db =>
      match backwardStep env migs version db with
      | (Except.error e, db1) => (Except.error e, db1)
      | (Except.ok _, db1) => downSteps env migs n (version - 1) db1

/-- The residual `migrateDown` loop about to run `version`, down to but
excluding `targetVersion`. -/
def migrateDownFrom (env : Env) (migs : List Migration) (version targetVersion : Int)
    (db : DBState) : Except MigErr Unit × DBState :=
  downSteps env migs (version - targetVersion).toNat version db

/-- `MigrationManager.migrateDown`: `for (version = currentVersion;
version > targetVersion; version--)`. -/
def migrateDown (env : Env) (migs : List Migration) (currentVersion targetVersion : Int)
    (db : DBState) : Except MigErr Unit × DBState :=
  migrateDownFrom env migs currentVersion targetVersion db

/-- `MigrationManager.migrateTo` with `none` standing for `"latest"`:
load (first read of the source), read the current version, resolve the
target — for `"latest"` through `getLatestVersion`, which loads again
(second read) — then run forward, backward, or nothing. -/
def migrateTo (env : Env) (targetVersion : Option Int) (db : DBState) :
    Except MigErr Unit × DBState :=
  match loadMigrations env 0 with
  | Except.error e => (Except.error e, db)
  | Except.ok migs =>
      match getCurrentVersion db with
      | Except.error e => (Except.error e, db)
      | Except.ok currentVersion =>
          match (match targetVersion with
                 | none => getLatestVersion env 1
                 | some t => Except.ok t) with
          | Except.error e => (Except.error e, db)
          | Except.ok actualTarget =>
              if currentVersion = actualTarget then (Except.ok (), db)
              else if currentVersion < actualTarget then
                migrateUp env migs currentVersion actualTarget db
              else
                migrateDown env migs currentVersion actualTarget db

/-! ## Helper lemmas about the ledger maximum -/

theorem le_foldMaxV (l : List LedgerEntry) (a : Int) :
    a ≤ l.foldl (fun acc r => max acc r.version) a := by
  induction l generalizing a with
  | nil => exact le_refl a
  | cons e rest ih =>
      simp only [List.foldl_cons]
      exact le_trans (le_max_left a e.version) (ih (max a e.version))

theorem foldMaxV_mem_le (l : List LedgerEntry) (a : Int) :
    ∀ x ∈ l, x.version ≤ l.foldl (fun acc r => max acc r.version) a := by
  induction l generalizing a with
  | nil => intro x hx; cases hx
  | cons e rest ih =>
      intro x hx
      rw [List.mem_cons] at hx
      rcases hx with rfl | hx
      · simp only [List.foldl_cons]
        exact le_trans (le_max_right a _) (le_foldMaxV rest _)
      · exact ih (max a e.version) x hx

theorem foldMaxV_cases (l : List LedgerEntry) (a : Int) :
    l.foldl (fun acc r => max acc r.version) a = a ∨
      ∃ e ∈ l, l.foldl (fun acc r => max acc r.version) a = e.version := by
  induction l generalizing a with
  | nil => exact Or.inl rfl
  | cons e rest ih =>
      simp only [List.foldl_cons]
      rcases ih (max a e.version) with h | ⟨x, hx, hfx⟩
      · rcases max_cases a e.version with ⟨hm, _⟩ | ⟨hm, _⟩
        · exact Or.inl (by rw [h, hm])
        · exact Or.inr ⟨e, List.mem_cons_self e rest, by rw [h, hm]⟩
      · exact Or.inr ⟨x, List.mem_cons_of_mem e hx, hfx⟩

theorem ledgerMax_ub (l : List LedgerEntry) : ∀ e ∈ l, e.version ≤ ledgerMax l := by
  cases l with
  | nil => intro e he; cases he
  | cons e0 rest =>
      intro e he
      rw [List.mem_cons] at he
      rcases he with rfl | he
      · exact le_foldMaxV rest e.version
      · exact foldMaxV_mem_le rest e0.version e he

theorem ledgerMax_attained (l : List LedgerEntry) (h : l ≠ []) :
    ∃ e ∈ l, ledgerMax l = e.version := by
  cases l with
  | nil => exact absurd rfl h
  | cons e0 rest =>
      rcases foldMaxV_cases rest e0.version with hc | ⟨x, hx, hfx⟩
      · exact ⟨e0, List.mem_cons_self e0 rest, hc⟩
      · exact ⟨x, List.mem_cons_of_mem e0 hx, hfx⟩

theorem ledgerMax_eq_of (l : List LedgerEntry) (b : Int)
    (hmem : ∃ e ∈ l, e.version = b) (hub : ∀ e ∈ l, e.version ≤ b) :
    ledgerMax l = b := by
  rcases hmem with ⟨e, he, hev⟩
  have hne : l ≠ [] := by intro h; rw [h] at he; cases he
  rcases ledgerMax_attained l hne with ⟨x, hx, hlx⟩
  exact le_antisymm (hlx ▸ hub x hx) (hev ▸ ledgerMax_ub l e he)

/-! ## Claim theorems: C9, C10 -/

/-- C9: `DenoDatabase` keeps at most one physical transaction open: a
`transaction()` call made while already inside one runs its function
directly (it is literally the function, so it issues no BEGIN, COMMIT or
ROLLBACK of its own), and after any outermost `transaction()` call —
whether the body returned or threw — the `inTransaction` flag is false
again, so a failed unit does not block later ones. -/
theorem claim_C9_transaction_reentrancy {α : Type}
    (body : DBState → Except MigErr α × DBState) (db : DBState) :
    (db.inTransaction = true → dbTransaction body db = body db) ∧
    (db.inTransaction = false → (dbTransaction body db).2.inTransaction = false) := by
  constructor
  · intro h
    simp [dbTransaction, h]
  · intro h
    simp only [dbTransaction, h, Bool.false_eq_true, if_false]
    rcases hb : body { db with inTransaction := true } with ⟨r, db1⟩
    cases r <;> simp

def bodyW9 : DBState → Except MigErr Unit × DBState :=
  fun d => (Except.error (MigErr.sqlError "boom"), d)

def dbW9a : DBState := { tableExists := true, ledger := [], schemaLog := [], inTransaction := true }

def dbW9b : DBState := { tableExists := true, ledger := [], schemaLog := [], inTransaction := false }

/-- Witness for C9 at a concrete failing body and concrete states. -/
theorem claim_C9_witness :
    dbTransaction bodyW9 dbW9a = bodyW9 dbW9a ∧
      (dbTransaction bodyW9 dbW9b).2.inTransaction = false :=
  ⟨(claim_C9_transaction_reentrancy bodyW9 dbW9a).1 rfl,
   (claim_C9_transaction_reentrancy bodyW9 dbW9b).2 rfl⟩

/-- C10: once the manager is constructed — the constructor idempotently
creates the `migrations` table and leaves the ledger rows alone —
`getCurrentVersion` never throws: on an empty ledger it returns 0, and
otherwise it returns the maximum version recorded in the ledger (an upper
bound that is attained by some row). -/
theorem claim_C10_current_version_total (db : DBState) :
    getCurrentVersion (ensureMigrationsTable db) = Except.ok (ledgerMax db.ledger) ∧
    ensureMigrationsTable (ensureMigrationsTable db) = ensureMigrationsTable db ∧
    (ensureMigrationsTable db).ledger = db.ledger ∧
    (db.ledger = [] → ledgerMax db.ledger = 0) ∧
    (∀ e ∈ db.ledger, e.version ≤ ledgerMax db.ledger) ∧
    (db.ledger ≠ [] → ∃ e ∈ db.ledger, ledgerMax db.ledger = e.version) := by
  refine ⟨rfl, rfl, rfl, ?_, ledgerMax_ub db.ledger, ledgerMax_attained db.ledger⟩
  intro h
  rw [h]
  rfl

def dbW10 : DBState :=
  { tableExists := false,
    ledger := [{ version := 2, name := "a", description := "", applied_at := "0" },
               { version := 1, name := "b", description := "", applied_at := "1" }],
    schemaLog := [], inTransaction := false }

/-- Witness for C10 at a concrete two-row ledger with the table not yet
created: after construction the current version is 2 and is attained. -/
theorem claim_C10_witness :
    getCurrentVersion (ensureMigrationsTable dbW10) = Except.ok (ledgerMax dbW10.ledger) ∧
      ledgerMax dbW10.ledger = 2 ∧ ∃ e ∈ dbW10.ledger, ledgerMax dbW10.ledger = e.version := by
  have h := claim_C10_current_version_total dbW10
  exact ⟨h.1, by decide, h.2.2.2.2.2 (by decide)⟩

/-! ## Claim theorems: C3, C5 -/

/-- C3: whenever the computed step sequence reaches a version absent from
the loaded set — in the forward loop (any step still to run, so
`version ≤ target`) or the backward loop (`target < version`) — the call
fails with `StepNotFoundError` naming the missing version and the state is
returned untouched: no atomic unit is opened for that step, and every step
committed in prior iterations of the same call (already part of `db`)
remains committed. -/
theorem claim_C3_step_not_found (env : Env) (migs : List Migration) (version target : Int)
    (db : DBState) (hfind : migs.find? (fun m => m.version == version) = none) :
    (version ≤ target →
      migrateUpFrom env migs version target db =
        (Except.error (MigErr.stepNotFound version), db)) ∧
    (target < version →
      migrateDownFrom env migs version target db =
        (Except.error (MigErr.stepNotFound version), db)) := by
  constructor
  · intro hle
    have h1 : (target + 1 - version).toNat = (target - version).toNat + 1 := by omega
    simp [migrateUpFrom, h1, upSteps, forwardStep, hfind]
  · intro hgt
    have h1 : (version - target).toNat = (version - 1 - target).toNat + 1 := by omega
    simp [migrateDownFrom, h1, downSteps, backwardStep, hfind]

def envW3 : Env :=
  { source := fun _ => Except.ok [], files := fun _ => none,
    sqlOk := fun _ => true, now := "0" }

def dbW3 : DBState := { tableExists := true, ledger := [], schemaLog := [], inTransaction := false }

/-- Witness for C3: with an empty loaded set, both the forward step toward
target 2 and the backward step toward target 0 fail with the not-found
error for version 1 and leave the state untouched. -/
theorem claim_C3_witness :
    migrateUpFrom envW3 [] 1 2 dbW3 = (Except.error (MigErr.stepNotFound 1), dbW3) ∧
      migrateDownFrom envW3 [] 1 0 dbW3 = (Except.error (MigErr.stepNotFound 1), dbW3) :=
  ⟨(claim_C3_step_not_found envW3 [] 1 2 dbW3 rfl).1 (by decide),
   (claim_C3_step_not_found envW3 [] 1 0 dbW3 rfl).2 (by decide)⟩

/-- C5: a backward step whose migration has `reversible = false` fails
with `NotReversibleError` naming the version before attempting anything
for that step — the state (and with it the ledger, which still lists that
version as applied) is returned untouched, no SQL is resolved and no
atomic unit is opened.  The statement places no condition on the `down`
field, so it holds in particular when the rollback script is also missing:
the reversible check precedes the missing-rollback-script check. -/
theorem claim_C5_not_reversible (env : Env) (migs : List Migration) (version target : Int)
    (db : DBState) (m : Migration)
    (hfind : migs.find? (fun x => x.version == version) = some m)
    (hrev : m.reversible = false) (hgt : target < version) :
    migrateDownFrom env migs version target db =
      (Except.error (MigErr.notReversible version m.name), db) := by
  have h1 : (version - target).toNat = (version - 1 - target).toNat + 1 := by omega
  simp [migrateDownFrom, h1, downSteps, backwardStep, hfind, hrev]

def migW5 : Migration :=
  { version := 2, name := "two", description := "", reversible := false,
    up := SqlSrc.inline "CREATE TABLE t(id INTEGER);", down := none }

def envW5 : Env :=
  { source := fun _ => Except.ok [migW5], files := fun _ => none,
    sqlOk := fun _ => true, now := "0" }

def dbW5 : DBState :=
  { tableExists := true,
    ledger := [{ version := 1, name := "one", description := "", applied_at := "0" },
               { version := 2, name := "two", description := "", applied_at := "0" }],
    schemaLog := [], inTransaction := false }

/-- Witness for C5, mirroring the spec example: version 2 applied and not
reversible (here also without a down script), rolling back toward 1 fails
with the not-reversible error and the ledger still lists version 2. -/
theorem claim_C5_witness :
    migrateDownFrom envW5 [migW5] 2 1 dbW5 =
        (Except.error (MigErr.notReversible 2 "two"), dbW5) ∧
      { version := 2, name := "two", description := "", applied_at := "0" } ∈ dbW5.ledger :=
  ⟨claim_C5_not_reversible envW5 [migW5] 2 1 dbW5 migW5 rfl rfl (by decide), by decide⟩

/-! ## Claim C4: sequence validation -/

theorem vsf_ok_iff (migs : List Migration) (k : Nat) :
    validateSeqFrom migs k = Except.ok () ↔
      migs.map (fun m => m.version) =
        (List.range migs.length).map (fun i => ((k + i : Nat) : Int) + 1) := by
  induction migs generalizing k with
  | nil => simp [validateSeqFrom]
  | cons m rest ih =>
      have hfun : ((fun i => ((k + i : Nat) : Int) + 1) ∘ Nat.succ) =
          (fun i => (((k + 1) + i : Nat) : Int) + 1) := by
        funext i
        simp only [Function.comp_apply]
        have h : k + Nat.succ i = (k + 1) + i := by omega
        rw [h]
      simp only [validateSeqFrom, List.map_cons, List.length_cons,
        List.range_succ_eq_map, List.map_map, hfun, Nat.add_zero]
      by_cases hv : m.version = (k : Int) + 1
      · rw [if_neg (not_not_intro hv), ih (k + 1)]
        simp [hv]
      · rw [if_pos hv]
        simp [hv]

theorem vsf_error_at (migs : List Migration) (k i : Nat) (hi : i < migs.length)
    (hprev : ∀ (j : Nat) (hj : j < migs.length), j < i →
      (migs.get ⟨j, hj⟩).version = ((k + j : Nat) : Int) + 1)
    (hbad : (migs.get ⟨i, hi⟩).version ≠ ((k + i : Nat) : Int) + 1) :
    validateSeqFrom migs k =
      Except.error (MigErr.sequenceError (((k + i : Nat) : Int) + 1)
        ((migs.get ⟨i, hi⟩).version)) := by
  induction migs generalizing k i with
  | nil => exact absurd hi (by simp)
  | cons m rest ih =>
      cases i with
      | zero =>
          have hg : (m :: rest).get ⟨0, hi⟩ = m := rfl
          rw [hg, Nat.add_zero] at hbad
          rw [hg, Nat.add_zero]
          simp only [validateSeqFrom]
          rw [if_pos hbad]
      | succ n =>
          have hm : m.version = (k : Int) + 1 := by
            have h0 := hprev 0 (by simp) (Nat.succ_pos n)
            have hg : (m :: rest).get ⟨0, by simp⟩ = m := rfl
            rw [hg] at h0
            simpa using h0
          have hi' : n < rest.length := by
            have := hi
            simp only [List.length_cons] at this
            omega
          have hprev' : ∀ (j : Nat) (hj : j < rest.length), j < n →
              (rest.get ⟨j, hj⟩).version = (((k + 1) + j : Nat) : Int) + 1 := by
            intro j hj hlt
            have hj1 : j + 1 < (m :: rest).length := by
              simp only [List.length_cons]
              omega
            have h := hprev (j + 1) hj1 (Nat.succ_lt_succ hlt)
            have hg : (m :: rest).get ⟨j + 1, hj1⟩ = rest.get ⟨j, hj⟩ := rfl
            rw [hg] at h
            have hcast : ((k + (j + 1) : Nat) : Int) = (((k + 1) + j : Nat) : Int) := by
              congr 1
              omega
            rw [← hcast]
            exact h
          have hg : (m :: rest).get ⟨n + 1, hi⟩ = rest.get ⟨n, hi'⟩ := rfl
          have hbad' : (rest.get ⟨n, hi'⟩).version ≠ (((k + 1) + n : Nat) : Int) + 1 := by
            have hcast : ((k + (n + 1) : Nat) : Int) = (((k + 1) + n : Nat) : Int) := by
              congr 1
              omega
            rw [← hcast]
            rw [hg] at hbad
            exact hbad
          have hres := ih (k + 1) n hi' hprev' hbad'
          simp only [validateSeqFrom]
          rw [if_neg (not_not_intro hm)]
          rw [hres, hg]
          have hcast : (((k + 1) + n : Nat) : Int) = ((k + (n + 1) : Nat) : Int) := by
            congr 1
            omega
          rw [hcast]

/-- C4: for every migration list (in particular every list sorted
ascending by version), validation succeeds if and only if the versions are
exactly `[1, 2, ..., N]`; and on the first 0-based index `i` where
`migrations[i].version` differs from `i + 1` — all earlier positions
matching — validation fails with the sequence error reporting expected
version `i + 1` and the actual version found there. -/
theorem claim_C4_sequence_validation (migs : List Migration) :
    (validateSeqFrom migs 0 = Except.ok () ↔
      migs.map (fun m => m.version) =
        (List.range migs.length).map (fun i : Nat => (i : Int) + 1)) ∧
    (∀ (i : Nat) (hi : i < migs.length),
      (∀ (j : Nat) (hj : j < migs.length), j < i →
        (migs.get ⟨j, hj⟩).version = (j : Int) + 1) →
      (migs.get ⟨i, hi⟩).version ≠ (i : Int) + 1 →
      validateSeqFrom migs 0 =
        Except.error (MigErr.sequenceError ((i : Int) + 1)
          ((migs.get ⟨i, hi⟩).version))) := by
  constructor
  · have hfun : (fun i : Nat => ((0 + i : Nat) : Int) + 1) = (fun i : Nat => (i : Int) + 1) := by
      funext i
      rw [Nat.zero_add]
    have h := vsf_ok_iff migs 0
    rw [hfun] at h
    exact h
  · intro i hi hprev hbad
    have hprev0 : ∀ (j : Nat) (hj : j < migs.length), j < i →
        (migs.get ⟨j, hj⟩).version = ((0 + j : Nat) : Int) + 1 := by
      intro j hj hlt
      rw [Nat.zero_add]
      exact hprev j hj hlt
    have hbad0 : (migs.get ⟨i, hi⟩).version ≠ ((0 + i : Nat) : Int) + 1 := by
      rw [Nat.zero_add]
      exact hbad
    have h := vsf_error_at migs 0 i hi hprev0 hbad0
    rw [Nat.zero_add] at h
    exact h

def migW4a : Migration :=
  { version := 1, name := "one", description := "", reversible := true,
    up := SqlSrc.inline "u1", down := some (SqlSrc.inline "d1") }

def migW4b : Migration :=
  { version := 2, name := "two", description := "", reversible := true,
    up := SqlSrc.inline "u2", down := some (SqlSrc.inline "d2") }

def migW4c : Migration :=
  { version := 3, name := "three", description := "", reversible := true,
    up := SqlSrc.inline "u3", down := some (SqlSrc.inline "d3") }

/-- Witness for C4: `[1, 2]` validates (both sides of the iff hold), and
the gapped set `[1, 3]` fails at index 1 with expected 2 / actual 3. -/
theorem claim_C4_witness :
    validateSeqFrom [migW4a, migW4b] 0 = Except.ok () ∧
      validateSeqFrom [migW4a, migW4c] 0 =
        Except.error (MigErr.sequenceError 2 3) := by
  constructor
  · exact (claim_C4_sequence_validation [migW4a, migW4b]).1.mpr (by decide)
  · have h := (claim_C4_sequence_validation [migW4a, migW4c]).2 1 (by decide)
      (by decide) (by decide)
    simpa using h

/-! ## Claim C1: forward-step atomicity -/

/-- C1: at any forward step of a `migrateTo` call (the residual loop about
to run `version ≤ target`, `db` being the state after every earlier
committed step of the same call), if the migration is found and its up SQL
resolves to usable content but any failure `e` occurs inside the step's
atomic unit — executing the up SQL or inserting the ledger row — then the
unit rolls back entirely: the loop (and with it `migrateTo`, which returns
its result unchanged) aborts with the execution error naming the version
and wrapping `e`, the ledger and the executed-SQL log are exactly as
before the step (so every earlier committed step persists and no ledger
row for this version was added), and the transaction flag is closed. -/
theorem claim_C1_forward_unit_rollback (env : Env) (migs : List Migration)
    (version target : Int) (db db' : DBState) (m : Migration) (upSql : String) (e : MigErr)
    (hle : version ≤ target)
    (hfind : migs.find? (fun x => x.version == version) = some m)
    (hres : resolveSql env (some m.up) version Direction.up = Except.ok (some upSql))
    (hne : upSql ≠ "")
    (hnt : db.inTransaction = false)
    (hunit : dbTransaction (forwardUnit env m version upSql) db = (Except.error e, db')) :
    migrateUpFrom env migs version target db =
      (Except.error (MigErr.executionError Direction.up version e), db') ∧
    db'.ledger = db.ledger ∧ db'.schemaLog = db.schemaLog ∧
    db'.inTransaction = false ∧
    ((∀ r ∈ db.ledger, r.version ≠ version) → ∀ r ∈ db'.ledger, r.version ≠ version) := by
  have hdb' : db' = { db with inTransaction := false } := by
    rw [dbTransaction] at hunit
    rw [hnt] at hunit
    simp only [Bool.false_eq_true, if_false] at hunit
    rcases hb : forwardUnit env m version upSql { db with inTransaction := true } with ⟨r, db1⟩
    rw [hb] at hunit
    cases r with
    | ok a => simp at hunit
    | error e0 =>
        simp only [Prod.mk.injEq] at hunit
        exact hunit.2.symm
  have hc : (target + 1 - version).toNat = (target - version).toNat + 1 := by omega
  refine ⟨?_, by rw [hdb'], by rw [hdb'], by rw [hdb'], ?_⟩
  · simp only [migrateUpFrom, hc, upSteps, forwardStep, hfind, hres]
    rw [if_neg hne]
    simp only [hunit]
  · intro h r hr
    rw [hdb'] at hr
    exact h r hr

def migW1 : Migration :=
  { version := 1, name := "one", description := "", reversible := true,
    up := SqlSrc.inline "BAD", down := none }

def envW1 : Env :=
  { source := fun _ => Except.ok [migW1], files := fun _ => none,
    sqlOk := fun s => s != "BAD", now := "0" }

def dbW1 : DBState := { tableExists := true, ledger := [], schemaLog := [], inTransaction := false }

/-- Witness for C1: the store rejects the up SQL of migration 1, the step
aborts with the execution error wrapping the store failure and the state
is unchanged. -/
theorem claim_C1_witness :
    migrateUpFrom envW1 [migW1] 1 1 dbW1 =
        (Except.error (MigErr.executionError Direction.up 1 (MigErr.sqlError "BAD")), dbW1) ∧
      (∀ r ∈ dbW1.ledger, r.version ≠ 1) := by
  have h := claim_C1_forward_unit_rollback envW1 [migW1] 1 1 dbW1 dbW1 migW1 "BAD"
    (MigErr.sqlError "BAD") (by decide) rfl rfl (by decide) rfl (by decide)
  exact ⟨h.1, h.2.2.2.2 (by decide)⟩

/-! ## Claim C7: pre-flight file validation -/

theorem checkFileRef_error_shape (env : Env) (m : Migration) (d : Direction)
    (s : Option SqlSrc) (e : MigErr) (h : checkFileRef env m d s = Except.error e) :
    ∃ p, s = some (SqlSrc.file p) ∧ p ≠ "" ∧ env.files p = none ∧
      e = MigErr.missingFileError m.version m.name d p := by
  match s with
  | none => exact absurd h (by simp [checkFileRef])
  | some (SqlSrc.inline t) => exact absurd h (by simp [checkFileRef])
  | some (SqlSrc.file p) =>
      by_cases hp : p = ""
      · rw [checkFileRef, if_pos hp] at h
        cases h
      · rw [checkFileRef, if_neg hp] at h
        cases hf : env.files p with
        | some c => rw [hf] at h; cases h
        | none =>
            rw [hf] at h
            cases h
            exact ⟨p, rfl, hp, hf, rfl⟩

theorem validateFiles_error_shape (env : Env) (migs : List Migration) (e : MigErr)
    (h : validateMigrationFiles env migs = Except.error e) :
    ∃ m ∈ migs, ∃ d p, e = MigErr.missingFileError m.version m.name d p ∧
      env.files p = none ∧ p ≠ "" ∧
      ((d = Direction.up ∧ m.up = SqlSrc.file p) ∨
       (d = Direction.down ∧ m.down = some (SqlSrc.file p))) := by
  induction migs with
  | nil => exact absurd h (by simp [validateMigrationFiles])
  | cons m rest ih =>
      rw [validateMigrationFiles] at h
      cases hc1 : checkFileRef env m Direction.up (some m.up) with
      | error e1 =>
          rw [hc1] at h
          have hee : e1 = e := by injection h
          rcases checkFileRef_error_shape env m Direction.up (some m.up) e1 hc1 with
            ⟨p, hsome, hp, hf, he⟩
          injection hsome with hup
          subst hee
          exact ⟨m, List.mem_cons_self m rest, Direction.up, p, he, hf, hp, Or.inl ⟨rfl, hup⟩⟩
      | ok u =>
          rw [hc1] at h
          cases hc2 : checkFileRef env m Direction.down m.down with
          | error e2 =>
              rw [hc2] at h
              have hee : e2 = e := by injection h
              rcases checkFileRef_error_shape env m Direction.down m.down e2 hc2 with
                ⟨p, hsome, hp, hf, he⟩
              subst hee
              exact ⟨m, List.mem_cons_self m rest, Direction.down, p, he, hf, hp,
                Or.inr ⟨rfl, hsome⟩⟩
          | ok u2 =>
              rw [hc2] at h
              rcases ih h with ⟨m2, hm2, d, p, hrest⟩
              exact ⟨m2, List.mem_cons_of_mem m hm2, d, p, hrest⟩

theorem checkFileRef_error_of_bad (env : Env) (m : Migration) (d : Direction) (p : String)
    (hp : p ≠ "") (hf : env.files p = none) :
    checkFileRef env m d (some (SqlSrc.file p)) =
      Except.error (MigErr.missingFileError m.version m.name d p) := by
  rw [checkFileRef, if_neg hp, hf]

theorem validateFiles_error_of_bad (env : Env) (migs : List Migration)
    (h : ∃ m ∈ migs, ∃ p, p ≠ "" ∧ env.files p = none ∧
      (m.up = SqlSrc.file p ∨ m.down = some (SqlSrc.file p))) :
    ∃ e, validateMigrationFiles env migs = Except.error e := by
  induction migs with
  | nil =>
      rcases h with ⟨m, hm, _⟩
      cases hm
  | cons m0 rest ih =>
      rw [validateMigrationFiles]
      cases hc1 : checkFileRef env m0 Direction.up (some m0.up) with
      | error e1 => exact ⟨e1, rfl⟩
      | ok u1 =>
          cases hc2 : checkFileRef env m0 Direction.down m0.down with
          | error e2 => exact ⟨e2, rfl⟩
          | ok u2 =>
              apply ih
              rcases h with ⟨m, hm, p, hp, hf, href⟩
              rcases List.mem_cons.mp hm with rfl | hmr
              · exfalso
                rcases href with hup | hdown
                · rw [hup] at hc1
                  rw [checkFileRef_error_of_bad env m Direction.up p hp hf] at hc1
                  cases hc1
                · rw [hdown] at hc2
                  rw [checkFileRef_error_of_bad env m Direction.down p hp hf] at hc2
                  cases hc2
              · exact ⟨m, hmr, p, hp, hf, href⟩

/-- A set whose only migration has an unresolvable up reference with the
empty path: `{file: ""}` is JS-falsy, so the pre-flight check skips it. -/
def migX7 : Migration :=
  { version := 1, name := "one", description := "", reversible := true,
    up := SqlSrc.file "", down := none }

def envX7 : Env :=
  { source := fun _ => Except.ok [migX7], files := fun _ => none,
    sqlOk := fun _ => true, now := "0" }

def dbX7 : DBState := { tableExists := true, ledger := [], schemaLog := [], inTransaction := false }

/-- A set whose only migration has an unresolvable down reference with the
empty path; the forward run never touches it. -/
def migY7 : Migration :=
  { version := 1, name := "one", description := "", reversible := true,
    up := SqlSrc.inline "u1", down := some (SqlSrc.file "") }

def envY7 : Env :=
  { source := fun _ => Except.ok [migY7], files := fun _ => none,
    sqlOk := fun _ => true, now := "0" }

def dbY7 : DBState := { tableExists := true, ledger := [], schemaLog := [], inTransaction := false }

def dbY7fin : DBState :=
  { tableExists := true,
    ledger := [{ version := 1, name := "one", description := "", applied_at := "0" }],
    schemaLog := ["u1"], inTransaction := false }

/-- Counterexample to C7 as stated: a migration set can contain a
migration whose up (or down) is an external file reference that does not
resolve — the empty path `{file: ""}`, falsy in JS, on which the source's
`migration.up.file` / `migration.down.file` guards skip the pre-flight
check — and yet `migrateTo` does not fail at pre-flight with
`MissingFileError`.  With the bad reference in `up`, the call passes
validation and fails only at apply time with the wrapped
`Failed to load SQL file` error; with the bad reference in `down`, the
call succeeds outright, opening an atomic unit and mutating the ledger. -/
theorem claim_C7_counterexample :
    (envX7.files "" = none ∧ migX7.up = SqlSrc.file "" ∧
      migrateTo envX7 (some 1) dbX7 =
        (Except.error (MigErr.executionError Direction.up 1
          (MigErr.fileLoadError 1 Direction.up)), dbX7)) ∧
    (envY7.files "" = none ∧ migY7.down = some (SqlSrc.file "") ∧
      migrateTo envY7 (some 1) dbY7 = (Except.ok (), dbY7fin)) := by
  refine ⟨⟨rfl, rfl, by decide⟩, ⟨rfl, rfl, by decide⟩⟩

/-- C7 amended: when the loaded set (loaded and sequence-valid) contains a
migration one of whose scripts is an external file reference with a
non-empty path that does not resolve, `migrateTo` — for any requested
target, explicit or latest — fails during pre-flight validation with the
load error wrapping a `MissingFileError` naming the (first) offending
migration and file, and the state is returned untouched: no step executes
and no atomic unit is opened, so the ledger and database are unchanged.
(An empty-path reference is JS-falsy and escapes the pre-flight check, as
the counterexample shows.) -/
theorem claim_C7_missing_file_preflight (env : Env) (target : Option Int) (db : DBState)
    (raw : List Migration) (m : Migration) (p : String)
    (hsrc : env.source 0 = Except.ok raw)
    (hseq : validateSeqFrom (sortMigrations raw) 0 = Except.ok ())
    (hm : m ∈ sortMigrations raw) (hp : p ≠ "") (hf : env.files p = none)
    (href : m.up = SqlSrc.file p ∨ m.down = some (SqlSrc.file p)) :
    ∃ m2 ∈ sortMigrations raw, ∃ d p2,
      migrateTo env target db =
        (Except.error (MigErr.loadError
          (MigErr.missingFileError m2.version m2.name d p2)), db) ∧
      env.files p2 = none ∧ p2 ≠ "" ∧
      ((d = Direction.up ∧ m2.up = SqlSrc.file p2) ∨
       (d = Direction.down ∧ m2.down = some (SqlSrc.file p2))) := by
  rcases validateFiles_error_of_bad env (sortMigrations raw) ⟨m, hm, p, hp, hf, href⟩ with
    ⟨e, hfiles⟩
  have hload : loadMigrations env 0 = Except.error (MigErr.loadError e) := by
    rw [loadMigrations, hsrc]
    simp only [hseq, hfiles]
  rcases validateFiles_error_shape env (sortMigrations raw) e hfiles with
    ⟨m2, hm2, d, p2, he, hf2, hp2, hshape⟩
  refine ⟨m2, hm2, d, p2, ?_, hf2, hp2, hshape⟩
  rw [he] at hload
  simp only [migrateTo, hload]

def migW7 : Migration :=
  { version := 1, name := "one", description := "", reversible := true,
    up := SqlSrc.file "missing.sql", down := none }

def envW7 : Env :=
  { source := fun _ => Except.ok [migW7], files := fun _ => none,
    sqlOk := fun _ => true, now := "0" }

def dbW7 : DBState := { tableExists := true, ledger := [], schemaLog := [], inTransaction := false }

/-- Witness for the amended C7: a migration whose up script is the
unresolvable non-empty file `missing.sql` makes `migrateTo` fail at
pre-flight with the wrapped missing-file error naming it, the state
untouched. -/
theorem claim_C7_witness :
    ∃ m2 ∈ sortMigrations [migW7], ∃ d p2,
      migrateTo envW7 (some 1) dbW7 =
        (Except.error (MigErr.loadError
          (MigErr.missingFileError m2.version m2.name d p2)), dbW7) ∧
      envW7.files p2 = none ∧ p2 ≠ "" ∧
      ((d = Direction.up ∧ m2.up = SqlSrc.file p2) ∨
       (d = Direction.down ∧ m2.down = some (SqlSrc.file p2))) :=
  claim_C7_missing_file_preflight envW7 (some 1) dbW7 [migW7] migW7 "missing.sql"
    rfl (by decide) (by decide) (by decide) rfl (Or.inl rfl)

/-! ## Claim C2: how often the source is read -/

def migC2a : Migration :=
  { version := 1, name := "one", description := "", reversible := true,
    up := SqlSrc.inline "SQL1", down := some (SqlSrc.inline "UNDO1") }

def migC2b : Migration :=
  { version := 2, name := "two", description := "", reversible := true,
    up := SqlSrc.inline "SQL2", down := some (SqlSrc.inline "UNDO2") }

/-- A migration source whose first read yields `[migC2a]` and whose second
read yields `[migC2a, migC2b]` — legal content in both reads, but changing
between them. -/
def envC2 : Env :=
  { source := fun i => if i = 0 then Except.ok [migC2a] else Except.ok [migC2a, migC2b],
    files := fun _ => none, sqlOk := fun _ => true, now := "0" }

def dbC2 : DBState := { tableExists := true, ledger := [], schemaLog := [], inTransaction := false }

def dbC2fin : DBState :=
  { tableExists := true,
    ledger := [{ version := 1, name := "one", description := "", applied_at := "0" }],
    schemaLog := ["SQL1"], inTransaction := false }

/-- Counterexample to C2 as stated: within the single call
`migrateTo "latest"` the source is read twice (once by the initial load,
once by `getLatestVersion`).  The first loaded and validated set is
`[migC2a]` with maximum version 1, yet the call resolves `actualTarget`
from the second read to 2 and then fails looking for step 2 in the first
set — so the set used to resolve the target and the set searched for the
steps are not the same list, and `actualTarget` is not the maximum of the
one loaded set. -/
theorem claim_C2_counterexample :
    loadMigrations envC2 0 = Except.ok [migC2a] ∧
    latestOf [migC2a] = 1 ∧
    getLatestVersion envC2 1 = Except.ok 2 ∧
    migrateTo envC2 none dbC2 = (Except.error (MigErr.stepNotFound 2), dbC2fin) := by
  refine ⟨by decide, by decide, by decide, by decide⟩

theorem loadMigrations_congr (env : Env) (i j : Nat) (h : env.source i = env.source j) :
    loadMigrations env i = loadMigrations env j := by
  unfold loadMigrations
  rw [h]

/-- C2 amended: each load reads the source once, and a `migrateTo` whose
target is `"latest"` loads twice — once up front and once inside
`getLatestVersion`.  Provided the source yields the same content on both
reads, the two sets coincide, and the call behaves exactly like
`migrateTo` with the explicit target `latestOf migs`, the maximum version
of the loaded and validated set — 0 when the set is empty. -/
theorem claim_C2_amended_single_set (env : Env) (db : DBState) (migs : List Migration)
    (hconst : env.source 1 = env.source 0)
    (hload : loadMigrations env 0 = Except.ok migs) :
    migrateTo env none db = migrateTo env (some (latestOf migs)) db ∧
    (migs = [] → latestOf migs = 0) := by
  have hload1 : loadMigrations env 1 = Except.ok migs := by
    rw [loadMigrations_congr env 1 0 hconst]
    exact hload
  have hgl : getLatestVersion env 1 = Except.ok (latestOf migs) := by
    rw [getLatestVersion, hload1]
  constructor
  · cases hcv : getCurrentVersion db with
    | error e => simp [migrateTo, hload, hgl, hcv]
    | ok cv => simp [migrateTo, hload, hgl, hcv]
  · intro h
    rw [h]
    rfl

/-- A variant of the C2 environment whose source is constant across
reads. -/
def envC2c : Env :=
  { source := fun _ => Except.ok [migC2a], files := fun _ => none,
    sqlOk := fun _ => true, now := "0" }

/-- Witness for the amended C2 at a constant one-migration source. -/
theorem claim_C2_amended_witness :
    migrateTo envC2c none dbC2 = migrateTo envC2c (some (latestOf [migC2a])) dbC2 :=
  (claim_C2_amended_single_set envC2c dbC2 [migC2a] rfl (by decide)).1

/-! ## Success-path machinery for the loops -/

theorem dbTransaction_ok {α : Type} (body : DBState → Except MigErr α × DBState)
    (db db' : DBState) (a : α) (hnt : db.inTransaction = false)
    (h : dbTransaction body db = (Except.ok a, db')) :
    ∃ db1, body { db with inTransaction := true } = (Except.ok a, db1) ∧
      db' = { db1 with inTransaction := false } := by
  rw [dbTransaction, hnt] at h
  simp only [Bool.false_eq_true, if_false] at h
  rcases hb : body { db with inTransaction := true } with ⟨r, db1⟩
  rw [hb] at h
  cases r with
  | ok b =>
      simp only [Prod.mk.injEq, Except.ok.injEq] at h
      rcases h with ⟨hba, hdb⟩
      subst hba
      exact ⟨db1, rfl, hdb.symm⟩
  | error e => simp at h

/-- The ledger row inserted by a committed forward step. -/
def stepRow (env : Env) (m : Migration) (version : Int) : LedgerEntry :=
  { version := version, name := m.name, description := m.description, applied_at := env.now }

theorem forwardUnit_ok (env : Env) (m : Migration) (version : Int) (upSql : String)
    (db db1 : DBState) (h : forwardUnit env m version upSql db = (Except.ok (), db1)) :
    env.sqlOk upSql = true ∧
    db.ledger.any (fun r => r.version == version) = false ∧
    db1 = { db with
            ledger := db.ledger ++ [stepRow env m version],
            schemaLog := db.schemaLog ++ [upSql] } := by
  rw [forwardUnit] at h
  split at h
  · simp at h
  · rename_i u db2 hexec
    rw [dbExec] at hexec
    by_cases hok : env.sqlOk upSql = true
    · rw [if_pos hok] at hexec
      injection hexec with h1 h2
      subst h2
      rw [dbInsert] at h
      split at h
      · simp at h
      · rename_i hdup
        have hdup2 : db.ledger.any (fun r => r.version == version) = false := by
          simpa using hdup
        injection h with h3 h4
        exact ⟨hok, hdup2, h4.symm⟩
    · rw [if_neg hok] at hexec
      simp at hexec

theorem forwardStep_ok (env : Env) (migs : List Migration) (version : Int)
    (db db' : DBState) (hnt : db.inTransaction = false)
    (h : forwardStep env migs version db = (Except.ok (), db')) :
    ∃ m upSql, migs.find? (fun x => x.version == version) = some m ∧
      resolveSql env (some m.up) version Direction.up = Except.ok (some upSql) ∧
      upSql ≠ "" ∧
      (∀ r ∈ db.ledger, r.version ≠ version) ∧
      db' = { db with
              ledger := db.ledger ++ [stepRow env m version],
              schemaLog := db.schemaLog ++ [upSql],
              inTransaction := false } := by
  rw [forwardStep] at h
  split at h
  · simp at h
  · rename_i m hfind
    split at h
    · simp at h
    · rename_i upOpt hres
      split at h
      · simp at h
      · rename_i upSql
        split at h
        · simp at h
        · rename_i hne
          split at h
          · rename_i u dbt htx
            injection h with h1 h2
            subst h2
            rcases dbTransaction_ok (forwardUnit env m version upSql) db dbt u hnt htx
              with ⟨db1, hbody, hdbt⟩
            rcases forwardUnit_ok env m version upSql _ db1 hbody with ⟨hok, hnodup, hdb1⟩
            refine ⟨m, upSql, hfind, hres, hne, ?_, ?_⟩
            · intro r hr hv
              have hany : db.ledger.any (fun x => x.version == version) = true := by
                rw [List.any_eq_true]
                exact ⟨r, hr, by simp [hv]⟩
              rw [hany] at hnodup
              cases hnodup
            · rw [hdbt, hdb1]
          · simp at h

theorem upSteps_ok_state (env : Env) (migs : List Migration) (n : Nat) (v : Int)
    (db db' : DBState) (hnt : db.inTransaction = false)
    (h : upSteps env migs n v db = (Except.ok (), db')) :
    db'.tableExists = db.tableExists ∧ db'.inTransaction = false ∧
    ∀ w : Int, (w ∈ db'.ledger.map (fun r => r.version) ↔
      w ∈ db.ledger.map (fun r => r.version) ∨ (v ≤ w ∧ w < v + (n : Int))) := by
  induction n generalizing v db with
  | zero =>
      rw [upSteps] at h
      simp only [Prod.mk.injEq, true_and] at h
      subst h
      refine ⟨rfl, hnt, fun w => ⟨fun hw => Or.inl hw, fun hw => ?_⟩⟩
      rcases hw with hw | hw
      · exact hw
      · exfalso
        omega
  | succ k ih =>
      rw [upSteps] at h
      rcases hs : forwardStep env migs v db with ⟨r, db1⟩
      rw [hs] at h
      cases r with
      | error e => simp at h
      | ok u =>
          rcases forwardStep_ok env migs v db db1 hnt hs with
            ⟨m, upSql, _, _, _, hnodup, hdb1⟩
          have hnt1 : db1.inTransaction = false := by rw [hdb1]
          rcases ih (v + 1) db1 hnt1 h with ⟨htab, hfl, hmem⟩
          refine ⟨by rw [htab, hdb1], hfl, ?_⟩
      -- membership through the inserted row for version v
          intro w
          have h1 := hmem w
      -- the ledger of db1 is db.ledger with the row for v appended
          have hmap : db1.ledger.map (fun r => r.version) =
              db.ledger.map (fun r => r.version) ++ [v] := by
            rw [hdb1]
            simp [stepRow]
          rw [hmap] at h1
          rw [h1]
          simp only [List.mem_append, List.mem_singleton]
          constructor
          · intro hw
            rcases hw with (hw | hw) | hw
            · exact Or.inl hw
            · subst hw; right; constructor <;> omega
            · right; omega
          · intro hw
            rcases hw with hw | hw
            · exact Or.inl (Or.inl hw)
            · by_cases hv : w = v
              · exact Or.inl (Or.inr hv)
              · right; omega

theorem backwardUnit_ok (env : Env) (version : Int) (downSql : String)
    (db db1 : DBState) (h : backwardUnit env version downSql db = (Except.ok (), db1)) :
    env.sqlOk downSql = true ∧
    db1 = { db with
            ledger := db.ledger.filter (fun r => r.version != version),
            schemaLog := db.schemaLog ++ [downSql] } := by
  rw [backwardUnit] at h
  split at h
  · simp at h
  · rename_i u db2 hexec
    rw [dbExec] at hexec
    by_cases hok : env.sqlOk downSql = true
    · rw [if_pos hok] at hexec
      injection hexec with h1 h2
      subst h2
      rw [dbDelete] at h
      injection h with h3 h4
      exact ⟨hok, h4.symm⟩
    · rw [if_neg hok] at hexec
      simp at hexec

theorem backwardStep_ok (env : Env) (migs : List Migration) (version : Int)
    (db db' : DBState) (hnt : db.inTransaction = false)
    (h : backwardStep env migs version db = (Except.ok (), db')) :
    ∃ m downSql, migs.find? (fun x => x.version == version) = some m ∧
      m.reversible = true ∧ downFalsy m.down = false ∧
      resolveSql env m.down version Direction.down = Except.ok (some downSql) ∧
      downSql ≠ "" ∧
      db' = { db with
              ledger := db.ledger.filter (fun r => r.version != version),
              schemaLog := db.schemaLog ++ [downSql],
              inTransaction := false } := by
  rw [backwardStep] at h
  split at h
  · simp at h
  · rename_i m hfind
    split at h
    · simp at h
    · rename_i hrev
      split at h
      · simp at h
      · rename_i hdf
        split at h
        · simp at h
        · rename_i downOpt hres
          split at h
          · simp at h
          · rename_i downSql
            split at h
            · simp at h
            · rename_i hne
              split at h
              · rename_i u dbt htx
                injection h with h1 h2
                subst h2
                rcases dbTransaction_ok (backwardUnit env version downSql) db dbt u hnt htx
                  with ⟨db1, hbody, hdbt⟩
                rcases backwardUnit_ok env version downSql _ db1 hbody with ⟨hok, hdb1⟩
                have hrev2 : m.reversible = true := by simpa using hrev
                have hdf2 : downFalsy m.down = false := by simpa using hdf
                refine ⟨m, downSql, hfind, hrev2, hdf2, hres, hne, ?_⟩
                rw [hdbt, hdb1]
              · simp at h

/-- The down SQL a backward step at `v` would execute: the resolved down
script of the migration found at `v` (only meaningful on success paths). -/
def downSqlOf (env : Env) (migs : List Migration) (v : Int) : String :=
  match migs.find? (fun m => m.version == v) with
  | none => ""
  | some m =>
      match resolveSql env m.down v Direction.down with
      | Except.ok (some s) => s
      | _ => ""

/-- The down SQL texts executed by `n` backward steps starting at `v`:
in strictly descending version order `v, v - 1, ...`. -/
def downSqlList (env : Env) (migs : List Migration) : Nat → Int → List String
  | 0, _ => []
  | n + 1, v => downSqlOf env migs v :: downSqlList env migs n (v - 1)

theorem mem_map_filter_version (l : List LedgerEntry) (v w : Int) :
    w ∈ (l.filter (fun r => r.version != v)).map (fun r => r.version) ↔
      w ∈ l.map (fun r => r.version) ∧ w ≠ v := by
  constructor
  · intro hw
    rcases List.mem_map.mp hw with ⟨r, hr, hrv⟩
    rcases List.mem_filter.mp hr with ⟨hrl, hne⟩
    refine ⟨List.mem_map.mpr ⟨r, hrl, hrv⟩, ?_⟩
    have hnv : r.version ≠ v := by simpa using hne
    rw [← hrv]
    exact hnv
  · rintro ⟨hw, hne⟩
    rcases List.mem_map.mp hw with ⟨r, hrl, hrv⟩
    refine List.mem_map.mpr ⟨r, List.mem_filter.mpr ⟨hrl, ?_⟩, hrv⟩
    rw [bne_iff_ne, hrv]
    exact hne

theorem downSteps_ok_state (env : Env) (migs : List Migration) (n : Nat) (v : Int)
    (db db' : DBState) (hnt : db.inTransaction = false)
    (h : downSteps env migs n v db = (Except.ok (), db')) :
    db'.tableExists = db.tableExists ∧ db'.inTransaction = false ∧
    db'.schemaLog = db.schemaLog ++ downSqlList env migs n v ∧
    ∀ w : Int, (w ∈ db'.ledger.map (fun r => r.version) ↔
      w ∈ db.ledger.map (fun r => r.version) ∧ ¬ (v - (n : Int) < w ∧ w ≤ v)) := by
  induction n generalizing v db with
  | zero =>
      rw [downSteps] at h
      simp only [Prod.mk.injEq, true_and] at h
      subst h
      refine ⟨rfl, hnt, by simp [downSqlList], fun w => ⟨fun hw => ⟨hw, by omega⟩,
        fun hw => hw.1⟩⟩
  | succ k ih =>
      rw [downSteps] at h
      rcases hs : backwardStep env migs v db with ⟨r, db1⟩
      rw [hs] at h
      cases r with
      | error e => simp at h
      | ok u =>
          rcases backwardStep_ok env migs v db db1 hnt hs with
            ⟨m, downSql, hfind, hrev, hdf, hres, hne, hdb1⟩
          have hnt1 : db1.inTransaction = false := by rw [hdb1]
          rcases ih (v - 1) db1 hnt1 h with ⟨htab, hfl, hlog, hmem⟩
          have hsofv : downSqlOf env migs v = downSql := by
            rw [downSqlOf, hfind]
            simp only [hres]
          refine ⟨by rw [htab, hdb1], hfl, ?_, ?_⟩
          · rw [hlog, hdb1]
            simp [downSqlList, hsofv]
          · intro w
            have h1 := hmem w
            have hmap : db1.ledger.map (fun r => r.version) =
                (db.ledger.filter (fun r => r.version != v)).map (fun r => r.version) := by
              rw [hdb1]
            rw [hmap] at h1
            rw [h1]
            rw [mem_map_filter_version db.ledger v w]
            constructor
            · rintro ⟨⟨hw, hne2⟩, hni⟩
              exact ⟨hw, by omega⟩
            · rintro ⟨hw, hni⟩
              refine ⟨⟨hw, by omega⟩, by omega⟩

theorem ledger_nil_of_no_mem (l : List LedgerEntry)
    (h : ∀ w : Int, w ∉ l.map (fun r => r.version)) : l = [] := by
  cases l with
  | nil => rfl
  | cons e rest =>
      exact absurd (List.mem_map.mpr ⟨e, List.mem_cons_self e rest, rfl⟩) (h e.version)

theorem ledgerMax_of_mem_iff (l : List LedgerEntry) (X : Int) (hX : 0 ≤ X)
    (hm : ∀ w : Int, w ∈ l.map (fun r => r.version) ↔ 1 ≤ w ∧ w ≤ X) :
    ledgerMax l = X := by
  by_cases hX0 : X = 0
  · subst hX0
    have hnil : l = [] := by
      refine ledger_nil_of_no_mem l (fun w hw => ?_)
      have hr := (hm w).mp hw
      omega
    rw [hnil]
    rfl
  · have hX1 : 1 ≤ X := by omega
    have hmemX : X ∈ l.map (fun r => r.version) := (hm X).mpr ⟨hX1, le_refl X⟩
    rcases List.mem_map.mp hmemX with ⟨e, he, hev⟩
    refine ledgerMax_eq_of l X ⟨e, he, hev⟩ ?_
    intro r hr
    exact ((hm r.version).mp (List.mem_map.mpr ⟨r, hr, rfl⟩)).2

/-- What a successful explicit-target `migrateTo` does to the store: when
the starting ledger is dense (its versions are exactly `1..current`), the
final ledger is dense with versions exactly `1..X`, the current version
read back is `X`, and the transaction flag is closed. -/
theorem migrateTo_ok_current (env : Env) (X : Int) (db db1 : DBState)
    (htab : db.tableExists = true) (hnt : db.inTransaction = false) (hX : 0 ≤ X)
    (hdense : ∀ w : Int, w ∈ db.ledger.map (fun r => r.version) ↔
      1 ≤ w ∧ w ≤ ledgerMax db.ledger)
    (h1 : migrateTo env (some X) db = (Except.ok (), db1)) :
    db1.tableExists = true ∧ db1.inTransaction = false ∧
    (∀ w : Int, w ∈ db1.ledger.map (fun r => r.version) ↔ 1 ≤ w ∧ w ≤ X) ∧
    ledgerMax db1.ledger = X := by
  have hcv : getCurrentVersion db = Except.ok (ledgerMax db.ledger) := by
    rw [getCurrentVersion, if_pos htab]
  rw [migrateTo] at h1
  split at h1
  · simp at h1
  · rename_i migs hload
    split at h1
    · simp at h1
    · rename_i cv hcv2
      rw [hcv] at hcv2
      injection hcv2 with hcveq
      have hC0 : 0 ≤ cv := by
        by_cases hl : db.ledger = []
        · rw [← hcveq, hl]
          exact le_refl 0
        · rcases ledgerMax_attained db.ledger hl with ⟨e, he, hev⟩
          have hmem0 : e.version ∈ db.ledger.map (fun r => r.version) :=
            List.mem_map.mpr ⟨e, he, rfl⟩
          have h1e := (hdense e.version).mp hmem0
          rw [← hcveq, hev]
          omega
      split at h1
      · rename_i heqv
        injection h1 with h1a h1b
        subst h1b
        refine ⟨htab, hnt, ?_, ?_⟩
        · intro w
          rw [hdense w, hcveq, heqv]
        · rw [hcveq, heqv]
      · rename_i hnev
        split at h1
        · rename_i hlt
          rw [migrateUp, migrateUpFrom] at h1
          rcases upSteps_ok_state env migs ((X + 1 - (cv + 1)).toNat) (cv + 1) db db1
            hnt h1 with ⟨ht, hf, hmem⟩
          have hcastn : (((X + 1 - (cv + 1)).toNat : Nat) : Int) = X - cv := by omega
          have hmem2 : ∀ w : Int,
              w ∈ db1.ledger.map (fun r => r.version) ↔ 1 ≤ w ∧ w ≤ X := by
            intro w
            have hw := hmem w
            rw [hdense w, hcveq, hcastn] at hw
            rw [hw]
            omega
          exact ⟨by rw [ht, htab], hf, hmem2, ledgerMax_of_mem_iff db1.ledger X hX hmem2⟩
        · rename_i hge
          rw [migrateDown, migrateDownFrom] at h1
          rcases downSteps_ok_state env migs ((cv - X).toNat) cv db db1 hnt h1 with
            ⟨ht, hf, hlog, hmem⟩
          have hcastn : (((cv - X).toNat : Nat) : Int) = cv - X := by omega
          have hmem2 : ∀ w : Int,
              w ∈ db1.ledger.map (fun r => r.version) ↔ 1 ≤ w ∧ w ≤ X := by
            intro w
            have hw := hmem w
            rw [hdense w, hcveq, hcastn] at hw
            rw [hw]
            omega
          exact ⟨by rw [ht, htab], hf, hmem2, ledgerMax_of_mem_iff db1.ledger X hX hmem2⟩

/-- C6: `migrateTo` at an explicit target is idempotent.  After a
successful `migrateTo X` from a well-formed store — `migrations` table
present, no transaction open, the ledger dense (versions exactly
`1..current`) — an immediately repeated `migrateTo X` against the same
environment finds the current version equal to the resolved target and
returns success with the store exactly unchanged: zero steps run, no
transaction is opened, and the ledger (the whole state `db1`) is exactly
as the first call left it. -/
theorem claim_C6_idempotent (env : Env) (X : Int) (db db1 : DBState)
    (htab : db.tableExists = true) (hnt : db.inTransaction = false) (hX : 0 ≤ X)
    (hdense : ∀ w : Int, w ∈ db.ledger.map (fun r => r.version) ↔
      1 ≤ w ∧ w ≤ ledgerMax db.ledger)
    (h1 : migrateTo env (some X) db = (Except.ok (), db1)) :
    migrateTo env (some X) db1 = (Except.ok (), db1) := by
  rcases migrateTo_ok_current env X db db1 htab hnt hX hdense h1 with ⟨ht1, hf1, hmem1, hmax1⟩
  have hex : ∃ migs, loadMigrations env 0 = Except.ok migs := by
    cases hl : loadMigrations env 0 with
    | error e =>
        rw [migrateTo] at h1
        rw [hl] at h1
        simp at h1
    | ok migs => exact ⟨migs, rfl⟩
  rcases hex with ⟨migs, hload⟩
  have hcv1 : getCurrentVersion db1 = Except.ok X := by
    rw [getCurrentVersion, if_pos ht1, hmax1]
  simp [migrateTo, hload, hcv1]

def migC6 : Migration :=
  { version := 1, name := "one", description := "", reversible := true,
    up := SqlSrc.inline "u1", down := some (SqlSrc.inline "d1") }

def envC6 : Env :=
  { source := fun _ => Except.ok [migC6], files := fun _ => none,
    sqlOk := fun _ => true, now := "0" }

def dbC6 : DBState := { tableExists := true, ledger := [], schemaLog := [], inTransaction := false }

def dbC6fin : DBState :=
  { tableExists := true,
    ledger := [{ version := 1, name := "one", description := "", applied_at := "0" }],
    schemaLog := ["u1"], inTransaction := false }

/-- Witness for C6: after migrating the empty store to version 1, a second
`migrateTo 1` succeeds and leaves the state exactly unchanged. -/
theorem claim_C6_witness :
    migrateTo envC6 (some 1) dbC6fin = (Except.ok (), dbC6fin) := by
  refine claim_C6_idempotent envC6 1 dbC6 dbC6fin rfl rfl (by decide) ?_ (by decide)
  intro w
  show w ∈ List.map (fun r => r.version) ([] : List LedgerEntry) ↔
    1 ≤ w ∧ w ≤ ledgerMax ([] : List LedgerEntry)
  constructor
  · intro hw
    simp at hw
  · intro hw
    exfalso
    have hle : w ≤ 0 := hw.2
    have hge : 1 ≤ w := hw.1
    omega

/-- C8: the round trip on the ledger.  Starting from an empty ledger in a
well-formed store, a successful `migrateTo N` followed by a successful
`migrateTo 0` leaves the ledger empty (current version 0); the first call
leaves the current version exactly at `N`; and the second call executes
the down scripts in strictly descending version order `N, N-1, ..., 1` —
its appended execution trace is `downSqlList` of the loaded set, which
descends one version per entry starting at `N`. -/
theorem claim_C8_round_trip (env : Env) (N : Int) (db0 db1 db2 : DBState)
    (htab : db0.tableExists = true) (hnt : db0.inTransaction = false)
    (hN : 0 ≤ N) (hempty : db0.ledger = [])
    (h1 : migrateTo env (some N) db0 = (Except.ok (), db1))
    (h2 : migrateTo env (some 0) db1 = (Except.ok (), db2)) :
    ledgerMax db1.ledger = N ∧ db2.ledger = [] ∧
    ∃ migs, loadMigrations env 0 = Except.ok migs ∧
      db2.schemaLog = db1.schemaLog ++ downSqlList env migs N.toNat N := by
  have hdense0 : ∀ w : Int, w ∈ db0.ledger.map (fun r => r.version) ↔
      1 ≤ w ∧ w ≤ ledgerMax db0.ledger := by
    intro w
    rw [hempty]
    constructor
    · intro hw
      simp at hw
    · intro hw
      exfalso
      have hle : w ≤ 0 := hw.2
      have hge : 1 ≤ w := hw.1
      omega
  rcases migrateTo_ok_current env N db0 db1 htab hnt hN hdense0 h1 with ⟨ht1, hf1, hmem1, hmax1⟩
  have hdense1 : ∀ w : Int, w ∈ db1.ledger.map (fun r => r.version) ↔
      1 ≤ w ∧ w ≤ ledgerMax db1.ledger := by
    intro w
    rw [hmax1]
    exact hmem1 w
  rcases migrateTo_ok_current env 0 db1 db2 ht1 hf1 (le_refl 0) hdense1 h2 with
    ⟨ht2, hf2, hmem2, hmax2⟩
  have hnil2 : db2.ledger = [] := by
    refine ledger_nil_of_no_mem db2.ledger (fun w hw => ?_)
    have hr := (hmem2 w).mp hw
    omega
  refine ⟨hmax1, hnil2, ?_⟩
  have hex : ∃ migs, loadMigrations env 0 = Except.ok migs := by
    cases hl : loadMigrations env 0 with
    | error e =>
        rw [migrateTo] at h2
        rw [hl] at h2
        simp at h2
    | ok migs => exact ⟨migs, rfl⟩
  rcases hex with ⟨migs, hload⟩
  refine ⟨migs, hload, ?_⟩
  have hcv1 : getCurrentVersion db1 = Except.ok N := by
    rw [getCurrentVersion, if_pos ht1, hmax1]
  by_cases hN0 : N = 0
  · subst hN0
    have h2b : migrateTo env (some 0) db1 = (Except.ok (), db1) := by
      simp [migrateTo, hload, hcv1]
    have hpair := h2b.symm.trans h2
    injection hpair with hpa hpb
    rw [← hpb]
    simp [downSqlList]
  · rw [migrateTo] at h2
    simp only [hload, hcv1] at h2
    rw [if_neg hN0] at h2
    rw [if_neg (by omega : ¬ N < 0)] at h2
    rw [migrateDown, migrateDownFrom] at h2
    rcases downSteps_ok_state env migs ((N - 0).toNat) N db1 db2 hf1 h2 with
      ⟨_, _, hlog, _⟩
    rw [show (N - 0).toNat = N.toNat by omega] at hlog
    exact hlog

def migC8a : Migration :=
  { version := 1, name := "one", description := "", reversible := true,
    up := SqlSrc.inline "u1", down := some (SqlSrc.inline "d1") }

def migC8b : Migration :=
  { version := 2, name := "two", description := "", reversible := true,
    up := SqlSrc.inline "u2", down := some (SqlSrc.inline "d2") }

def envC8 : Env :=
  { source := fun _ => Except.ok [migC8a, migC8b], files := fun _ => none,
    sqlOk := fun _ => true, now := "0" }

def dbC8 : DBState := { tableExists := true, ledger := [], schemaLog := [], inTransaction := false }

def db1W8 : DBState :=
  { tableExists := true,
    ledger := [{ version := 1, name := "one", description := "", applied_at := "0" },
               { version := 2, name := "two", description := "", applied_at := "0" }],
    schemaLog := ["u1", "u2"], inTransaction := false }

def db2W8 : DBState :=
  { tableExists := true, ledger := [],
    schemaLog := ["u1", "u2", "d2", "d1"], inTransaction := false }

/-- Witness for C8: two reversible migrations, up to 2 and back to 0; the
ledger ends empty and the trace appended by the way down is the two down
scripts in the order `d2` then `d1`. -/
theorem claim_C8_witness :
    ledgerMax db1W8.ledger = 2 ∧ db2W8.ledger = [] ∧
      ∃ migs, loadMigrations envC8 0 = Except.ok migs ∧
        db2W8.schemaLog = db1W8.schemaLog ++ downSqlList envC8 migs (2 : Int).toNat 2 :=
  claim_C8_round_trip envC8 2 dbC8 db1W8 db2W8 rfl rfl (by decide) rfl
    (by decide) (by decide)

end NumTwo
